import Mathlib

/-!
Verification of the Update Dispatch Engine of `userbot-api-server`.

The definitions below are a shallow embedding of the TypeScript sources:
* `src/services/telegram/UpdateManager.ts` (the `UpdateManager` class), and
* `src/utils/telegram.ts` (`handleMediaAlbum`, `shouldIncludeUpdate`,
  `convertToMessage`, `DEFAULT_UPDATE_TYPES` and the associated data types).

JavaScript `Map` objects are embedded as insertion-ordered association
lists (`Map.set` replaces in place or appends; `Map.delete` removes;
iteration follows insertion order).  `Date.now()` values and timer handles
are passed explicitly.  Promise resolution of a pending long-poll request
is made visible as an explicit output value, and timer callbacks are
embedded as explicit transition functions on the state.
-/

namespace UserbotApi

/-! ## Insertion-ordered association lists (JS `Map` semantics) -/

/-- `Map.get k`: first binding of `k`, if any. -/
def aget {κ α : Type} [DecidableEq κ] (k : κ) : List (κ × α) → Option α
  | [] => none
  | (k', v) :: rest => if k' = k then some v else aget k rest

/-- `Map.set k v`: replace the binding in place if `k` is present,
otherwise append it (JS `Map` keeps insertion order). -/
def aset {κ α : Type} [DecidableEq κ] (k : κ) (v : α) : List (κ × α) → List (κ × α)
  | [] => [(k, v)]
  | (k', v') :: rest => if k' = k then (k, v) :: rest else (k', v') :: aset k v rest

/-- `Map.delete k`: remove the binding of `k`, if any. -/
def adel {κ α : Type} [DecidableEq κ] (k : κ) : List (κ × α) → List (κ × α)
  | [] => []
  | (k', v') :: rest => if k' = k then rest else (k', v') :: adel k rest

/-! ## Update kinds and filtering (src/utils/telegram.ts) -/

/-- `UpdateType` (src/utils/telegram.ts, the string-literal union). -/
inductive UpdateType : Type
  | message
  | edited_message
  | channel_post
  | edited_channel_post
  | delete
  | album
  | typing
  | user_update
  | chat_action
  | inline_query
  | callback_query
  | reaction
  | story
  | all
deriving DecidableEq, Repr

/-- `DEFAULT_UPDATE_TYPES` (src/utils/telegram.ts). -/
def DEFAULT_UPDATE_TYPES : List UpdateType :=
  [.message, .edited_message, .channel_post, .edited_channel_post,
   .delete, .typing, .chat_action, .album]

/-- `UpdateOptions` (src/utils/telegram.ts); both fields are optional. -/
structure UpdateOptions : Type where
  allowed_updates : Option (List UpdateType)
  exclude_updates : Option (List UpdateType)
deriving DecidableEq, Repr

/-- `shouldIncludeUpdate` (src/utils/telegram.ts).  Note that in the source
`exclude_updates?.includes(type)` is falsy when `exclude_updates` is
absent, and `!allowed_updates` is false even for an empty array. -/
def shouldIncludeUpdate (t : UpdateType) (options : Option UpdateOptions) : Bool :=
  match options with
  | none => true
  | some o =>
    let excluded := match o.exclude_updates with
      | some ex => ex.contains t
      | none => false
    if excluded then false
    else match o.allowed_updates with
      | none => true
      | some al => al.contains t || al.contains .all

/-! ## Messages

`Msg` embeds the provider's raw `Api.Message` restricted to the fields the
engine reads: `id`, `groupedId`, `message` (text), `out`, `editDate`,
`post`.  Sender, chat, date and media payloads are carried by
`convertToMessage` from runtime provider data and do not influence any
control path of the engine, so they are not embedded. -/

/-- Raw provider message (the fields of `Api.Message` the engine reads). -/
structure Msg : Type where
  id : Nat
  groupedId : Option String
  text : String
  out : Bool
  editDate : Option Nat
  post : Bool
deriving DecidableEq, Repr

/-- Canonical `Message` (src/utils/telegram.ts), restricted to the embedded
fields. -/
structure Message : Type where
  message_id : Nat
  text : String
  group_id : Option String
  out : Bool
deriving DecidableEq, Repr

/-- `convertToMessage` (src/utils/telegram.ts:508): `message_id := message.id`,
`text := message.message || ""`, `group_id := message.groupedId?.toString()`,
`out := message.out || false`. -/
def convertToMessage (m : Msg) : Message :=
  { message_id := m.id, text := m.text, group_id := m.groupedId, out := m.out }

/-- Payload of a canonical `Update`: exactly one populated variant.  The
engine's message pipeline produces either a single message keyed by its
kind or an `album`. -/
inductive Payload : Type
  | single (kind : UpdateType) (m : Message)
  | album (album_id : String) (messages : List Message)
deriving DecidableEq, Repr

/-- Canonical `Update` envelope (src/utils/telegram.ts). -/
structure Update : Type where
  update_id : Nat
  payload : Payload
deriving DecidableEq, Repr

/-! ## Stable sort by a numeric key

`Array.prototype.sort` with comparator `(a, b) => key(a) - key(b)` is a
stable sort ascending by `key`; we embed it as a stable insertion sort. -/

/-- Insert `x` into an already sorted `l`, placing `x` before the first
element of equal or larger key.  Used under `foldr`, `x` originally
preceded every element of `l`, so placing it before equal keys preserves
the original order of ties (stability). -/
def insertByKey {α : Type} (key : α → Nat) (x : α) : List α → List α
  | [] => [x]
  | y :: ys => if key x ≤ key y then x :: y :: ys else y :: insertByKey key x ys

/-- Stable sort ascending by `key` (JS `sort((a,b) => key(a)-key(b))`). -/
def ssortBy {α : Type} (key : α → Nat) (l : List α) : List α :=
  l.foldr (insertByKey key) []

/-! ## Engine state -/

/-- One pending album (`pendingAlbums` entry, src/utils/telegram.ts:147):
the buffered fragments and the handle of the currently scheduled debounce
timer. -/
structure AlbumEntry : Type where
  messages : List Msg
  timer : Nat
deriving DecidableEq, Repr

/-- `UpdateHandler` (src/utils/telegram.ts:410) as stored by `getUpdates`:
the offset cursor, the timeout timer handle and the per-call options.
The `resolve`/`reject` callbacks are represented by making resolution an
explicit output of the transitions that invoke them. -/
structure Handler : Type where
  offset : Option Nat
  timeoutHandle : Option Nat
  options : Option UpdateOptions
deriving DecidableEq, Repr

/-- The per-account configuration read by the engine (`User` row):
`phoneNumber`, `updateMode` and the webhook target. -/
structure UserRec : Type where
  phoneNumber : String
  updateMode : String
  webhookUrl : Option String
  webhookSecret : Option String
deriving DecidableEq, Repr

/-- Dedup cache key: the source builds the string
`${phoneNumber}:${message.id}:${type}` (UpdateManager.ts:233); its
components are embedded as a triple. -/
structure MsgKey : Type where
  phone : String
  msgId : Nat
  kind : UpdateType
deriving DecidableEq, Repr

/-- `MESSAGE_CACHE_TTL` (UpdateManager.ts:14): one minute. -/
def MESSAGE_CACHE_TTL : Nat := 60 * 1000

/-- `MAX_CACHE_SIZE` (UpdateManager.ts:15). -/
def MAX_CACHE_SIZE : Nat := 1000

/-- The mutable state of the `UpdateManager` instance fields
(UpdateManager.ts:10-13) together with the module-level `pendingAlbums`
map (src/utils/telegram.ts:147) and an explicit pool of live timers.
`activeTimers` holds the handles of scheduled, not yet fired and not yet
cancelled timers; `nextTimer` allocates fresh handles. -/
structure UMState : Type where
  updateHandlers : List (String × Handler)
  updateBuffers : List (String × List Update)
  lastUpdateId : List (String × Nat)
  processedMessages : List (MsgKey × Nat)
  pendingAlbums : List (String × AlbumEntry)
  activeTimers : List Nat
  nextTimer : Nat
deriving DecidableEq, Repr

/-- The state of a fresh `UpdateManager` (all maps empty). -/
def initialState : UMState :=
  { updateHandlers := [], updateBuffers := [], lastUpdateId := [],
    processedMessages := [], pendingAlbums := [], activeTimers := [],
    nextTimer := 0 }

/-! ## UpdateManager primitive operations -/

/-- `generateUpdateId` (UpdateManager.ts:19-24).  `lastUpdateId.get(phone)
|| Date.now()` is falsy both for a missing entry and for a stored `0`;
`now` stands for `Date.now()`. -/
def generateUpdateId (phoneNumber : String) (now : Nat) (s : UMState) :
    Nat × UMState :=
  let lastId := match aget phoneNumber s.lastUpdateId with
    | some v => if v = 0 then now else v
    | none => now
  let newId := lastId + 1
  (newId, { s with lastUpdateId := aset phoneNumber newId s.lastUpdateId })

/-- `getBufferedUpdates` (UpdateManager.ts:26-41).  `!offset` is truthy
both for a missing offset and for `offset = 0` (JS falsiness), in which
case the whole buffer is drained.  With an offset, the buffer is scanned
for the first update with `update_id > offset`; if none exists the call
returns `[]` leaving the buffer untouched, otherwise it returns the
buffer's tail from that position and empties the buffer. -/
def getBufferedUpdates (phoneNumber : String) (offset : Option Nat)
    (s : UMState) : List Update × UMState :=
  let buffer := (aget phoneNumber s.updateBuffers).getD []
  let drain : List Update × UMState :=
    (buffer, { s with updateBuffers := aset phoneNumber [] s.updateBuffers })
  match offset with
  | none => drain
  | some o =>
    if o = 0 then drain
    else
      match buffer.findIdx? (fun u => decide (o < u.update_id)) with
      | none => ([], s)
      | some i =>
        (buffer.drop i, { s with updateBuffers := aset phoneNumber [] s.updateBuffers })

/-- `clearHandlers` (UpdateManager.ts:401-408): cancel the pending
waiter's timer if any, remove the waiter, and reset the account's update
buffer to the empty list. -/
def clearHandlers (phoneNumber : String) (s : UMState) : UMState :=
  let s1 := match aget phoneNumber s.updateHandlers with
    | some h =>
      match h.timeoutHandle with
      | some tid => { s with activeTimers := s.activeTimers.erase tid }
      | none => s
    | none => s
  { s1 with
    updateHandlers := adel phoneNumber s1.updateHandlers,
    updateBuffers := aset phoneNumber [] s1.updateBuffers }

/-- The state effect of `setupEventHandling` (UpdateManager.ts:59-64): it
calls `clearHandlers`; the remainder of the function registers callbacks
on the provider client object and does not touch `UpdateManager` state. -/
def setupEventHandling (phoneNumber : String) (s : UMState) : UMState :=
  clearHandlers phoneNumber s

/-- `cleanupProcessedMessages` (UpdateManager.ts:206-227), acting on the
`processedMessages` map: delete entries with `timestamp < now - TTL`
(with `now - TTL` at floor `0`, equivalent to the negative JS threshold
since timestamps are non-negative); then, if still above capacity, sort
the remaining entries ascending by timestamp (stably, as JS `sort`) and
delete the first `size - MAX_CACHE_SIZE` of them from the map. -/
def cleanupProcessedMessages (now : Nat) (pm : List (MsgKey × Nat)) :
    List (MsgKey × Nat) :=
  let expiredTime := now - MESSAGE_CACHE_TTL
  let pm1 := pm.filter (fun e => decide (¬ e.2 < expiredTime))
  if MAX_CACHE_SIZE < pm1.length then
    let victims := (ssortBy (fun e => e.2) pm1).take (pm1.length - MAX_CACHE_SIZE)
    victims.foldl (fun acc e => adel e.1 acc) pm1
  else pm1

/-! ## Album assembly (src/utils/telegram.ts:255-306) -/

/-- `handleMediaAlbum` (src/utils/telegram.ts:255).  Returns the batch of
raw messages to emit now (empty if the fragment was buffered) together
with the updated state.  A message without `groupedId` passes through.
For an existing group the current timer is cancelled (`clearTimeout`), a
new 500 ms timer is scheduled, the fragment is appended and the group is
sorted by message id; with two or more fragments the group is deleted and
returned (the freshly scheduled timer is not cancelled on this path — as
in the source — and later fires against a deleted group).  For a new
group a 300 ms initial timer is scheduled and the fragment buffered. -/
def handleMediaAlbum (m : Msg) (s : UMState) : List Msg × UMState :=
  match m.groupedId with
  | none => ([m], s)
  | some groupId =>
    match aget groupId s.pendingAlbums with
    | some existingAlbum =>
      let timersAfterClear := s.activeTimers.erase existingAlbum.timer
      let newTimer := s.nextTimer
      let msgs := ssortBy Msg.id (existingAlbum.messages ++ [m])
      if 2 ≤ msgs.length then
        (msgs,
         { s with
           pendingAlbums := adel groupId s.pendingAlbums,
           activeTimers := timersAfterClear ++ [newTimer],
           nextTimer := newTimer + 1 })
      else
        ([],
         { s with
           pendingAlbums :=
             aset groupId { messages := msgs, timer := newTimer } s.pendingAlbums,
           activeTimers := timersAfterClear ++ [newTimer],
           nextTimer := newTimer + 1 })
    | none =>
      let newTimer := s.nextTimer
      ([],
       { s with
         pendingAlbums :=
           aset groupId { messages := [m], timer := newTimer } s.pendingAlbums,
         activeTimers := s.activeTimers ++ [newTimer],
         nextTimer := newTimer + 1 })

/-- The initial debounce timer callback (src/utils/telegram.ts:289-297)
firing for `groupId`.  The middle component is the value the callback
computes and `return`s: for a one-fragment group, that group's messages.
A `setTimeout` callback has no caller, so the runtime discards this
value; the callback invokes neither `sendWebhook` nor `bufferUpdate`, so
the last component — the canonical `Update`s it emits — is `[]` on every
path, and its only state effect is deleting the group (and the fired
timer leaving the live pool). -/
def albumInitialTimerFire (groupId : String) (s : UMState) :
    UMState × List Msg × List Update :=
  match aget groupId s.pendingAlbums with
  | some album =>
    let s1 := { s with
      pendingAlbums := adel groupId s.pendingAlbums,
      activeTimers := s.activeTimers.erase album.timer }
    if album.messages.length = 1 then (s1, album.messages, [])
    else (s1, [], [])
  | none => ({ s with pendingAlbums := adel groupId s.pendingAlbums }, [], [])

/-! ## Buffering and the long-poll waiter -/

/-- `bufferUpdate` (UpdateManager.ts:379-399): append the update to the
account's buffer; if a waiter is registered, re-read the buffer through
`getBufferedUpdates` with the waiter's offset and, when that yields a
non-empty slice, cancel the waiter's timer, remove the waiter and resolve
it with the slice.  The second component is the value the waiter's
promise was resolved with, if any. -/
def bufferUpdate (phoneNumber : String) (update : Update) (s : UMState) :
    UMState × Option (List Update) :=
  let buffer := (aget phoneNumber s.updateBuffers).getD [] ++ [update]
  let s1 := { s with updateBuffers := aset phoneNumber buffer s.updateBuffers }
  match aget phoneNumber s1.updateHandlers with
  | none => (s1, none)
  | some handler =>
    let r := getBufferedUpdates phoneNumber handler.offset s1
    if 0 < r.1.length then
      let s3 := match handler.timeoutHandle with
        | some tid => { r.2 with activeTimers := r.2.activeTimers.erase tid }
        | none => r.2
      ({ s3 with updateHandlers := adel phoneNumber s3.updateHandlers },
       some r.1)
    else (r.2, none)

/-- The long-poll timeout callback (UpdateManager.ts:437-441) firing for
an account: delete the waiter and resolve it with `[]` (the resolved
value is the second component).  The fired timer `tid` leaves the live
pool. -/
def waiterTimerFire (phoneNumber : String) (tid : Nat) (s : UMState) :
    UMState × List Update :=
  ({ s with
     updateHandlers := adel phoneNumber s.updateHandlers,
     activeTimers := s.activeTimers.erase tid }, [])

/-- Outcome of a `getUpdates` call: a synchronously thrown usage error, a
synchronously returned list, or a registered waiter (pending promise). -/
inductive GetUpdatesOutcome : Type
  | usageError (msg : String)
  | ret (updates : List Update)
  | waiting
deriving DecidableEq, Repr

/-- `getUpdates` (UpdateManager.ts:410-452).  Webhook mode throws before
any mutation; otherwise `clearHandlers` runs, the buffer is consulted
(truncating a non-empty result to `limit`), `timeout = 0` returns `[]`,
and otherwise a waiter with a fresh `timeout`-second timer is
registered. -/
def getUpdates (user : UserRec) (offset : Option Nat) (limit : Nat)
    (timeout : Nat) (options : Option UpdateOptions) (s : UMState) :
    GetUpdatesOutcome × UMState :=
  if user.updateMode = "webhook" then
    (.usageError "Updates cannot be retrieved via polling when webhook is enabled. Please delete the webhook first.", s)
  else
    let s1 := clearHandlers user.phoneNumber s
    let r := getBufferedUpdates user.phoneNumber offset s1
    if 0 < r.1.length then (.ret (r.1.take limit), r.2)
    else if timeout = 0 then (.ret [], r.2)
    else
      let timeoutHandle := r.2.nextTimer
      (.waiting,
       { r.2 with
         updateHandlers :=
           aset user.phoneNumber
             { offset := offset, timeoutHandle := some timeoutHandle,
               options := options }
             r.2.updateHandlers,
         activeTimers := r.2.activeTimers ++ [timeoutHandle],
         nextTimer := timeoutHandle + 1 })

/-! ## The message pipeline (UpdateManager.ts:229-312, 454-460) -/

/-- The delivery router (`processUpdate`, UpdateManager.ts:454-460, and the
identical dispatch inside `handleMessageUpdate`): webhook mode with a
configured URL hands the update to the webhook sender, anything else
buffers it.  The middle component lists the updates handed to a delivery
path; the last is the value a resolved waiter received, if any. -/
def dispatchUpdate (user : UserRec) (update : Update) (s : UMState) :
    UMState × List Update × Option (List Update) :=
  if user.updateMode = "webhook" && user.webhookUrl.isSome then
    (s, [update], none)
  else
    let r := bufferUpdate user.phoneNumber update s
    (r.1, [update], r.2)

/-- `handleMessageUpdate` (UpdateManager.ts:229-312).  A dedup hit returns
before any mutation.  Otherwise the key is recorded, the cache is cleaned
when above capacity, and the album assembler is consulted; an empty batch
ends the call without allocating a sequence number.  A batch of two or
more with album updates enabled (for the currently registered waiter's
options) becomes one `album` update — `album_id` is the current message's
`groupedId`, non-null-asserted in the source (`albumId!`) and defaulted
here, sound because a multi-fragment batch only arises from a grouped
message.  Any other batch becomes one single-message update built from
the current message.  Either update is then dispatched. -/
def handleMessageUpdate (user : UserRec) (m : Msg) (type : UpdateType)
    (now : Nat) (s : UMState) : UMState × List Update × Option (List Update) :=
  let messageKey : MsgKey :=
    { phone := user.phoneNumber, msgId := m.id, kind := type }
  if (aget messageKey s.processedMessages).isSome then (s, [], none)
  else
    let pm1 := aset messageKey now s.processedMessages
    let pm2 :=
      if MAX_CACHE_SIZE < pm1.length then cleanupProcessedMessages now pm1
      else pm1
    let s1 := { s with processedMessages := pm2 }
    let r := handleMediaAlbum m s1
    if r.1.length = 0 then (r.2, [], none)
    else
      let handler := aget user.phoneNumber r.2.updateHandlers
      if 1 < r.1.length ∧
          shouldIncludeUpdate .album (handler.bind Handler.options) = true then
        let albumMessages := r.1.map convertToMessage
        let albumId := m.groupedId.getD ""
        let g := generateUpdateId user.phoneNumber now r.2
        dispatchUpdate user { update_id := g.1, payload := .album albumId albumMessages } g.2
      else
        let g := generateUpdateId user.phoneNumber now r.2
        dispatchUpdate user
          { update_id := g.1, payload := .single type (convertToMessage m) } g.2

/-! ## Webhook sender (UpdateManager.ts:314-377) -/

/-- `maxRetries` (UpdateManager.ts:316). -/
def maxRetries : Nat := 50

/-- `baseTimeout` (UpdateManager.ts:317): per-attempt timeout, ms. -/
def baseTimeout : Nat := 5000

/-- `maxBackoffTime` (UpdateManager.ts:318): backoff ceiling, ms. -/
def maxBackoffTime : Nat := 30000

/-- The backoff computed before retry `attempt + 2` (UpdateManager.ts:368):
`Math.min(Math.floor(Math.random() * 200) + Math.pow(2, attempt) * 1000,
maxBackoffTime)`, with `jitter = Math.floor(Math.random() * 200)` ranging
over `0..199`.  (For `attempt ≥ 5` the sum exceeds the ceiling even under
floating-point rounding, so exact `Nat` arithmetic is faithful.) -/
def backoffTime (attempt jitter : Nat) : Nat :=
  min (jitter + 2 ^ attempt * 1000) maxBackoffTime

/-- The retry loop of `sendWebhook` (UpdateManager.ts:320-376), abstracted
over the per-attempt outcome `ok` (2xx within the attempt timeout).
Returns the number of attempts performed and whether delivery succeeded;
on a failing last attempt the loop `break`s, so exhaustion returns
normally (the update is dropped, no error propagates).  `fuel` bounds the
recursion; `sendWebhook` supplies `maxRetries + 1`, enough for the loop
bound `attempt ≤ maxRetries`. -/
def sendWebhookGo (ok : Nat → Bool) : Nat → Nat → Nat × Bool
  | _, 0 => (0, false)
  | attempt, fuel + 1 =>
    if ok attempt then (1, true)
    else if attempt = maxRetries then (1, false)
    else
      let r := sendWebhookGo ok (attempt + 1) fuel
      (r.1 + 1, r.2)

/-- `sendWebhook` (UpdateManager.ts:314): run the retry loop from attempt
`0`. -/
def sendWebhook (ok : Nat → Bool) : Nat × Bool :=
  sendWebhookGo ok 0 (maxRetries + 1)

/-! ## Traces of sequence-number generation -/

/-- Run a sequence of `generateUpdateId` calls, each given by the account
and the `Date.now()` value at call time; collect the issued ids in call
order. -/
def runGen : List (String × Nat) → UMState → List (String × Nat) × UMState
  | [], s => ([], s)
  | (phone, now) :: rest, s =>
    let r := generateUpdateId phone now s
    let rec' := runGen rest r.2
    ((phone, r.1) :: rec'.1, rec'.2)

/-- The ids issued to one account, in call order. -/
def idsFor (phone : String) (issued : List (String × Nat)) : List Nat :=
  issued.filterMap (fun x => if x.1 = phone then some x.2 else none)

/-! ## Well-formedness

A JS `Map` never holds two bindings of the same key; reachable embedded
states keep each association list's keys `Nodup` (`aset`/`adel` preserve
this).  Lemmas about deletion assume it. -/

/-- The keys of an association list are pairwise distinct. -/
def keysNodup {κ α : Type} (l : List (κ × α)) : Prop :=
  (l.map Prod.fst).Nodup

instance {κ α : Type} [DecidableEq κ] (l : List (κ × α)) :
    Decidable (keysNodup l) := by
  unfold keysNodup; infer_instance

/-! ## Concrete fixtures used by the evaluation theorems -/

/-- A canonical update with a given `update_id`. -/
def sampleUpdate (i : Nat) : Update :=
  { update_id := i,
    payload := .single .message
      { message_id := i, text := "", group_id := none, out := false } }

/-- A polling-mode account. -/
def pollingUser : UserRec :=
  { phoneNumber := "p", updateMode := "none", webhookUrl := none,
    webhookSecret := none }

/-- A webhook-mode account. -/
def webhookUser : UserRec :=
  { phoneNumber := "p", updateMode := "webhook",
    webhookUrl := some "https://example.invalid/hook", webhookSecret := none }

/-- State with updates `3,4,5,6,7` buffered for account `p`. -/
def c1State : UMState :=
  { initialState with
    updateBuffers :=
      [("p", [sampleUpdate 3, sampleUpdate 4, sampleUpdate 5,
              sampleUpdate 6, sampleUpdate 7])] }

/-- A lone album fragment: message `1` of group `g`. -/
def c3Msg : Msg :=
  { id := 1, groupedId := some "g", text := "", out := false,
    editDate := none, post := false }

/-- A registered long-poll waiter with offset `100` and timer `7`. -/
def c5Handler : Handler :=
  { offset := some 100, timeoutHandle := some 7, options := none }

/-- State with the waiter `c5Handler` registered for `p` on an empty
buffer. -/
def c5State : UMState :=
  { initialState with
    updateHandlers := [("p", c5Handler)], activeTimers := [7] }

/-- Album fragments of group `g` with descending ids. -/
def c6MsgHigh : Msg :=
  { id := 11, groupedId := some "g", text := "second", out := false,
    editDate := none, post := false }

/-- See `c6MsgHigh`. -/
def c6MsgLow : Msg :=
  { id := 10, groupedId := some "g", text := "first", out := false,
    editDate := none, post := false }

/-- Dedup key of filler message `i` for account `p`. -/
def fillerKey (i : Nat) : MsgKey :=
  { phone := "p", msgId := i, kind := .message }

/-- `999` dedup entries for messages `1..999`, all recorded at time `1`. -/
def fillerEntries : List (MsgKey × Nat) :=
  (List.range 999).map (fun i => (fillerKey (i + 1), 1))

/-- State whose dedup cache already holds `fillerEntries`. -/
def c7State : UMState :=
  { initialState with processedMessages := fillerEntries }

/-- The message observed twice in the C7 scenario (id `0`). -/
def c7MsgA : Msg :=
  { id := 0, groupedId := none, text := "", out := false,
    editDate := none, post := false }

/-- The `1000`-th distinct filler message (id `1000`). -/
def c7MsgF : Msg :=
  { id := 1000, groupedId := none, text := "", out := false,
    editDate := none, post := false }

/-- A two-entry dedup cache used to instantiate the eviction theorem. -/
def c8SmallCache : List (MsgKey × Nat) :=
  [(fillerKey 1, 0), (fillerKey 2, 70000)]

/-! ## Association list lemmas -/

section AListLemmas

variable {κ α : Type} [DecidableEq κ]

theorem aget_eq_none_iff {k : κ} {l : List (κ × α)} :
    aget k l = none ↔ ∀ p ∈ l, p.1 ≠ k := by
  induction l with
  | nil => simp [aget]
  | cons p rest ih =>
    obtain ⟨k', v⟩ := p
    by_cases hk : k' = k
    · subst hk; simp [aget]
    · simp [aget, hk, ih]

theorem aget_aset_self (k : κ) (v : α) (l : List (κ × α)) :
    aget k (aset k v l) = some v := by
  induction l with
  | nil => simp [aset, aget]
  | cons p rest ih =>
    obtain ⟨k', v'⟩ := p
    by_cases hk : k' = k
    · subst hk; simp [aset, aget]
    · simp [aset, aget, hk, ih]

theorem aget_aset_ne {k k' : κ} (h : k' ≠ k) (v : α) (l : List (κ × α)) :
    aget k (aset k' v l) = aget k l := by
  induction l with
  | nil => simp [aset, aget, h]
  | cons p rest ih =>
    obtain ⟨k'', v''⟩ := p
    by_cases hk : k'' = k'
    · subst hk; simp [aset, aget, h]
    · simp [aset, aget, hk, ih]

theorem aset_of_not_mem {k : κ} {l : List (κ × α)}
    (h : ∀ p ∈ l, p.1 ≠ k) (v : α) : aset k v l = l ++ [(k, v)] := by
  induction l with
  | nil => simp [aset]
  | cons p rest ih =>
    obtain ⟨k', v'⟩ := p
    have hk : k' ≠ k := h (k', v') (List.mem_cons_self _ _)
    simp only [aset, if_neg hk, List.cons_append]
    exact congrArg _ (ih (fun p hp => h p (List.mem_cons_of_mem _ hp)))

theorem adel_of_not_mem {k : κ} {l : List (κ × α)}
    (h : ∀ p ∈ l, p.1 ≠ k) : adel k l = l := by
  induction l with
  | nil => simp [adel]
  | cons p rest ih =>
    obtain ⟨k', v'⟩ := p
    have hk : k' ≠ k := h (k', v') (List.mem_cons_self _ _)
    simp only [adel, if_neg hk]
    exact congrArg _ (ih (fun p hp => h p (List.mem_cons_of_mem _ hp)))

theorem adel_append_left {k : κ} {l₁ : List (κ × α)}
    (h : ∀ p ∈ l₁, p.1 ≠ k) (l₂ : List (κ × α)) :
    adel k (l₁ ++ l₂) = l₁ ++ adel k l₂ := by
  induction l₁ with
  | nil => simp
  | cons p rest ih =>
    obtain ⟨k', v'⟩ := p
    have hk : k' ≠ k := h (k', v') (List.mem_cons_self _ _)
    simp only [List.cons_append, adel, if_neg hk]
    exact congrArg _ (ih (fun p hp => h p (List.mem_cons_of_mem _ hp)))

theorem adel_sublist (k : κ) (l : List (κ × α)) : (adel k l).Sublist l := by
  induction l with
  | nil => simp [adel]
  | cons p rest ih =>
    obtain ⟨k', v'⟩ := p
    by_cases hk : k' = k
    · simp only [adel, if_pos hk]
      exact List.sublist_cons_self _ _
    · simp only [adel, if_neg hk]
      exact List.Sublist.cons₂ (k', v') ih

theorem mem_of_mem_adel {k : κ} {l : List (κ × α)} {p : κ × α}
    (h : p ∈ adel k l) : p ∈ l := (adel_sublist k l).mem h

theorem adel_eq_filter {k : κ} {l : List (κ × α)} (h : keysNodup l) :
    adel k l = l.filter (fun p => !(decide (p.1 = k))) := by
  induction l with
  | nil => simp [adel]
  | cons p rest ih =>
    obtain ⟨k', v'⟩ := p
    have h' : keysNodup rest := (List.nodup_cons.mp h).2
    by_cases hk : k' = k
    · subst hk
      have hrest : ∀ q ∈ rest, q.1 ≠ k' := by
        intro q hq heq
        exact (List.nodup_cons.mp h).1
          (by simpa [heq] using List.mem_map_of_mem Prod.fst hq)
      have hfilter : rest.filter (fun p => !(decide (p.1 = k'))) = rest :=
        List.filter_eq_self.mpr (by intro q hq; simpa using hrest q hq)
      simp [adel, List.filter_cons, hfilter]
    · simp [adel, hk, List.filter_cons, ih h', hk]

theorem aget_adel_self {k : κ} {l : List (κ × α)} (h : keysNodup l) :
    aget k (adel k l) = none := by
  rw [adel_eq_filter h, aget_eq_none_iff]
  intro p hp
  simpa using (List.of_mem_filter hp)

theorem aget_adel_ne {k k' : κ} (h : k' ≠ k) (l : List (κ × α)) :
    aget k (adel k' l) = aget k l := by
  induction l with
  | nil => simp [adel]
  | cons p rest ih =>
    obtain ⟨k'', v''⟩ := p
    by_cases hk : k'' = k'
    · subst hk; simp [adel, aget, h]
    · by_cases hk2 : k'' = k
      · subst hk2; simp [adel, aget, hk]
      · simp [adel, aget, hk, hk2, ih]

omit [DecidableEq κ] in
theorem keysNodup_filter (q : κ × α → Bool) {l : List (κ × α)}
    (h : keysNodup l) : keysNodup (l.filter q) := by
  unfold keysNodup at h ⊢
  have hs : (l.filter q).Sublist l := List.filter_sublist l
  exact (hs.map Prod.fst).nodup h

omit [DecidableEq κ] in
theorem keysNodup_append_single {k : κ} {l : List (κ × α)}
    (h : keysNodup l) (hk : ∀ p ∈ l, p.1 ≠ k) (v : α) :
    keysNodup (l ++ [(k, v)]) := by
  unfold keysNodup at h ⊢
  rw [List.map_append]
  refine List.Nodup.append h (by simp) ?_
  intro a ha hb
  simp only [List.map_cons, List.map_nil, List.mem_singleton] at hb
  subst hb
  obtain ⟨p, hp, hpk⟩ := List.mem_map.mp ha
  exact hk p hp hpk

end AListLemmas

/-! ## Stable sort lemmas -/

section SortLemmas

variable {α : Type} (key : α → Nat)

theorem insertByKey_perm (x : α) (l : List α) :
    List.Perm (insertByKey key x l) (x :: l) := by
  induction l with
  | nil => simp [insertByKey]
  | cons y ys ih =>
    by_cases h : key x ≤ key y
    · simp [insertByKey, h]
    · simp only [insertByKey, if_neg h]
      exact (ih.cons y).trans (List.Perm.swap x y ys)

theorem ssortBy_perm (l : List α) : List.Perm (ssortBy key l) l := by
  induction l with
  | nil => simp [ssortBy]
  | cons y ys ih =>
    simp only [ssortBy, List.foldr_cons]
    exact (insertByKey_perm key y _).trans (ih.cons y)

theorem insertByKey_sorted {x : α} {l : List α}
    (h : l.Pairwise (fun a b => key a ≤ key b)) :
    (insertByKey key x l).Pairwise (fun a b => key a ≤ key b) := by
  induction l with
  | nil => simp [insertByKey]
  | cons y ys ih =>
    by_cases hxy : key x ≤ key y
    · simp only [insertByKey, if_pos hxy]
      refine List.pairwise_cons.mpr ⟨?_, h⟩
      intro b hb
      rcases List.mem_cons.mp hb with rfl | hb
      · exact hxy
      · exact hxy.trans (List.rel_of_pairwise_cons h hb)
    · simp only [insertByKey, if_neg hxy]
      have hy := List.pairwise_cons.mp h
      refine List.pairwise_cons.mpr ⟨?_, ih hy.2⟩
      intro b hb
      have hb' := (insertByKey_perm key x ys).mem_iff.mp hb
      rcases List.mem_cons.mp hb' with rfl | hb'
      · exact le_of_not_le hxy
      · exact hy.1 b hb'

theorem ssortBy_sorted (l : List α) :
    (ssortBy key l).Pairwise (fun a b => key a ≤ key b) := by
  induction l with
  | nil => simp [ssortBy]
  | cons y ys ih =>
    simp only [ssortBy, List.foldr_cons]
    exact insertByKey_sorted key ih

theorem insertByKey_of_le {x : α} {l : List α}
    (h : ∀ y ∈ l, key x ≤ key y) : insertByKey key x l = x :: l := by
  cases l with
  | nil => rfl
  | cons y ys =>
    simp only [insertByKey, if_pos (h y (List.mem_cons_self _ _))]

theorem foldr_insertByKey_cons {a : α} {l : List α}
    (h : ∀ x ∈ l, key a < key x) (acc : List α) :
    l.foldr (insertByKey key) (a :: acc) =
      a :: l.foldr (insertByKey key) acc := by
  induction l with
  | nil => rfl
  | cons x xs ih =>
    have hx : key a < key x := h x (List.mem_cons_self _ _)
    have hrest : ∀ y ∈ xs, key a < key y :=
      fun y hy => h y (List.mem_cons_of_mem _ hy)
    simp only [List.foldr_cons, ih hrest]
    simp [insertByKey, not_le.mpr hx]

theorem foldr_insertByKey_append {l acc : List α}
    (hl : l.Pairwise (fun a b => key a ≤ key b))
    (hacc : ∀ x ∈ l, ∀ y ∈ acc, key x ≤ key y) :
    l.foldr (insertByKey key) acc = l ++ acc := by
  induction l with
  | nil => rfl
  | cons x xs ih =>
    have hx := List.pairwise_cons.mp hl
    have step : xs.foldr (insertByKey key) acc = xs ++ acc :=
      ih hx.2 (fun a ha y hy => hacc a (List.mem_cons_of_mem _ ha) y hy)
    simp only [List.foldr_cons, step]
    refine (insertByKey_of_le key ?_).trans rfl
    intro y hy
    rcases List.mem_append.mp hy with hy | hy
    · exact hx.1 y hy
    · exact hacc x (List.mem_cons_self _ _) y hy

end SortLemmas


/-! ## Engine-level helper lemmas -/

theorem clearHandlers_fields (phone : String) (s : UMState) :
    (clearHandlers phone s).updateBuffers = aset phone [] s.updateBuffers ∧
    (clearHandlers phone s).updateHandlers = adel phone s.updateHandlers ∧
    (clearHandlers phone s).lastUpdateId = s.lastUpdateId ∧
    (clearHandlers phone s).processedMessages = s.processedMessages ∧
    (clearHandlers phone s).pendingAlbums = s.pendingAlbums := by
  unfold clearHandlers
  rcases h : aget phone s.updateHandlers with _ | hd
  · simp [h]
  · rcases ht : hd.timeoutHandle with _ | tid <;> simp [h, ht]

theorem getBufferedUpdates_empty (phone : String) (off : Option Nat)
    (s : UMState) (h : (aget phone s.updateBuffers).getD [] = []) :
    (getBufferedUpdates phone off s).1 = [] := by
  unfold getBufferedUpdates
  rcases off with _ | o
  · simpa using h
  · by_cases ho : o = 0
    · simp [ho, h]
    · simp [ho, h]


/-! ## Claim theorems -/

/-- C1: evaluation of the code at the claim's input.  With updates
`3,4,5,6,7` buffered for polling account `p`, `getUpdates(offset = 5)`
returns `[]`, not the claimed `[6, 7]`: `clearHandlers`, invoked at the
top of `getUpdates`, resets the buffer to `[]` before the buffer is
inspected.  The second conjunct shows that the buffer inspection itself
(`getBufferedUpdates` with offset `5` on the same state) yields exactly
the updates `6` and `7`, so the synchronous-return branch of `getUpdates`
is made unreachable by the preceding `clearHandlers`. -/
theorem c1_getUpdates_offset5_returns_empty :
    (getUpdates pollingUser (some 5) 100 0 none c1State).1 = .ret [] ∧
    (getBufferedUpdates "p" (some 5) c1State).1 =
      [sampleUpdate 6, sampleUpdate 7] := by
  exact ⟨rfl, rfl⟩

/-- C3: evaluation of the code on a lone album fragment.  Offering the
single fragment `c3Msg` of group `g` buffers it and produces no update;
when the initial debounce timer then fires, the callback computes the
one-element batch `[c3Msg]` but — being a `setTimeout` callback whose
return value the runtime discards — emits no `Update` through any
delivery path: afterwards the pending album is gone, the account buffer
was never written, and no sequence number was ever allocated.  The
fragment is silently lost, contradicting the claimed emission of exactly
one `Update`. -/
theorem c3_lone_album_fragment_is_lost :
    (handleMessageUpdate pollingUser c3Msg .message 0 initialState).2.1 = [] ∧
    aget "g" (handleMessageUpdate pollingUser c3Msg .message 0
        initialState).1.pendingAlbums = some { messages := [c3Msg], timer := 0 } ∧
    (albumInitialTimerFire "g" (handleMessageUpdate pollingUser c3Msg .message 0
        initialState).1).2.1 = [c3Msg] ∧
    (albumInitialTimerFire "g" (handleMessageUpdate pollingUser c3Msg .message 0
        initialState).1).2.2 = [] ∧
    (albumInitialTimerFire "g" (handleMessageUpdate pollingUser c3Msg .message 0
        initialState).1).1.pendingAlbums = [] ∧
    (albumInitialTimerFire "g" (handleMessageUpdate pollingUser c3Msg .message 0
        initialState).1).1.updateBuffers = [] ∧
    (albumInitialTimerFire "g" (handleMessageUpdate pollingUser c3Msg .message 0
        initialState).1).1.lastUpdateId = [] := by
  exact ⟨rfl, rfl, rfl, rfl, rfl, rfl, rfl⟩

/-- C9: a `getUpdates` call for an account in webhook mode fails
immediately and synchronously with the usage error, and the state —
buffers, waiters, and everything else — is returned unchanged. -/
theorem c9_webhook_mode_usage_error (user : UserRec) (offset : Option Nat)
    (limit timeout : Nat) (options : Option UpdateOptions) (s : UMState)
    (h : user.updateMode = "webhook") :
    getUpdates user offset limit timeout options s =
      (.usageError "Updates cannot be retrieved via polling when webhook is enabled. Please delete the webhook first.", s) := by
  unfold getUpdates
  rw [if_pos h]

/-- Witness for C9 at a concrete webhook-mode account and state. -/
theorem c9_witness :
    getUpdates webhookUser (some 5) 100 0 none c1State =
      (.usageError "Updates cannot be retrieved via polling when webhook is enabled. Please delete the webhook first.", c1State) :=
  c9_webhook_mode_usage_error webhookUser (some 5) 100 0 none c1State rfl

/-- C4: webhook retry policy.  A target failing on every attempt causes
exactly `maxRetries + 1 = 51` attempts, after which the loop returns
normally with the update undelivered (dropped, no error surfaced).  For
every attempt index and every jitter below `200`, the delay before the
next attempt equals `min 30000 (2 ^ attempt * 1000 + jitter)` ms, and
these delays are non-decreasing in the attempt index regardless of the
jitters drawn. -/
theorem c4_webhook_retry_policy :
    sendWebhook (fun _ => false) = (51, false) ∧
    maxRetries + 1 = 51 ∧
    (∀ attempt jitter : Nat, jitter < 200 →
      backoffTime attempt jitter = min 30000 (2 ^ attempt * 1000 + jitter)) ∧
    (∀ attempt j₁ j₂ : Nat, j₁ < 200 →
      backoffTime attempt j₁ ≤ backoffTime (attempt + 1) j₂) := by
  refine ⟨by decide, rfl, ?_, ?_⟩
  · intro attempt jitter _
    simp [backoffTime, maxBackoffTime, Nat.add_comm, Nat.min_comm]
  · intro attempt j₁ j₂ h
    unfold backoffTime maxBackoffTime
    have h200 : (200 : Nat) ≤ 2 ^ attempt * 1000 := by
      calc (200 : Nat) ≤ 1 * 1000 := by norm_num
      _ ≤ 2 ^ attempt * 1000 := Nat.mul_le_mul_right 1000 Nat.one_le_two_pow
    have hstep : j₁ + 2 ^ attempt * 1000 ≤ j₂ + 2 ^ (attempt + 1) * 1000 := by
      have hdouble : 2 ^ (attempt + 1) * 1000 = 2 ^ attempt * 1000 + 2 ^ attempt * 1000 := by
        rw [pow_succ]; ring
      omega
    exact min_le_min hstep le_rfl

/-- Witness for C4: the backoff conjuncts instantiated at attempt `3`
with jitter values `150` and `0`. -/
theorem c4_witness :
    backoffTime 3 150 = min 30000 (2 ^ 3 * 1000 + 150) ∧
    backoffTime 3 150 ≤ backoffTime 4 0 :=
  ⟨c4_webhook_retry_policy.2.2.1 3 150 (by decide),
   c4_webhook_retry_policy.2.2.2 3 150 0 (by decide)⟩


/-- C2: `clearHandlers` — run at the top of every polling-mode
`getUpdates` call and of every `setupEventHandling` call — resets the
account's buffer to `[]` and removes the pending waiter; consequently a
polling-mode `getUpdates` call never sees a previously buffered update:
its synchronous outcome is `.ret []` or a registered waiter, for every
prior state. -/
theorem c2_clearHandlers_discards_buffer (phone : String) (s : UMState)
    (user : UserRec) (offset : Option Nat) (limit timeout : Nat)
    (options : Option UpdateOptions)
    (hnodup : keysNodup s.updateHandlers)
    (hmode : user.updateMode ≠ "webhook") :
    aget phone (clearHandlers phone s).updateBuffers = some [] ∧
    aget phone (clearHandlers phone s).updateHandlers = none ∧
    aget phone (setupEventHandling phone s).updateBuffers = some [] ∧
    ((getUpdates user offset limit timeout options s).1 = .ret [] ∨
      (getUpdates user offset limit timeout options s).1 = .waiting) := by
  obtain ⟨hbuf, hhand, -, -, -⟩ := clearHandlers_fields phone s
  refine ⟨?_, ?_, ?_, ?_⟩
  · rw [hbuf]; exact aget_aset_self phone [] s.updateBuffers
  · rw [hhand]; exact aget_adel_self hnodup
  · show aget phone (clearHandlers phone s).updateBuffers = some []
    rw [hbuf]; exact aget_aset_self phone [] s.updateBuffers
  · have hb : (aget user.phoneNumber
        (clearHandlers user.phoneNumber s).updateBuffers).getD [] = [] := by
      rw [(clearHandlers_fields user.phoneNumber s).1,
        aget_aset_self user.phoneNumber [] s.updateBuffers]
      rfl
    have hempty := getBufferedUpdates_empty user.phoneNumber offset
      (clearHandlers user.phoneNumber s) hb
    unfold getUpdates
    rw [if_neg hmode]
    by_cases ht : timeout = 0
    · left
      simp [hempty, ht]
    · right
      simp [hempty, ht]


/-- Witness for C2 at a concrete account and state. -/
theorem c2_witness :
    aget "p" (clearHandlers "p" c5State).updateBuffers = some [] ∧
    aget "p" (clearHandlers "p" c5State).updateHandlers = none ∧
    aget "p" (setupEventHandling "p" c5State).updateBuffers = some [] ∧
    ((getUpdates pollingUser (some 3) 100 0 none c5State).1 = .ret [] ∨
      (getUpdates pollingUser (some 3) 100 0 none c5State).1 = .waiting) :=
  c2_clearHandlers_discards_buffer "p" c5State pollingUser (some 3) 100 0 none
    (by decide) (by decide)

/-- C5 counterexample: a waiter with offset `100` is registered for `p`
on an empty buffer (state `c5State`); the first update delivered has
`update_id = 50 ≤ 100`, and `bufferUpdate` does *not* resolve the waiter:
the promise stays pending (`none`), the waiter stays registered and its
timer stays live — refuting the claim that the first update delivered
while a waiter is registered always resolves it. -/
theorem c5_counterexample_low_id_does_not_resolve :
    (bufferUpdate "p" (sampleUpdate 50) c5State).2 = none ∧
    aget "p" (bufferUpdate "p" (sampleUpdate 50) c5State).1.updateHandlers =
      some c5Handler ∧
    (bufferUpdate "p" (sampleUpdate 50) c5State).1.activeTimers = [7] := by
  exact ⟨rfl, rfl, rfl⟩

/-- C5 amended: for an account with a registered waiter on an empty
buffer, the first update delivered resolves the waiter immediately with
the offset-filtered slice `[u]`, cancels the waiter's timer and removes
the waiter — *provided* the update passes the waiter's offset
(`update_id > offset`, or no/zero offset); an update at or below the
offset is buffered without resolving, and the waiter stays registered.
If the timer fires first, the waiter is resolved with `[]` and cleared. -/
theorem c5_amended_waiter_resolution (phone : String) (h : Handler)
    (u : Update) (tid : Nat) (s : UMState)
    (hh : aget phone s.updateHandlers = some h)
    (hbuf : (aget phone s.updateBuffers).getD [] = [])
    (hnodup : keysNodup s.updateHandlers) :
    ((∀ o, h.offset = some o → o = 0 ∨ o < u.update_id) →
      (bufferUpdate phone u s).2 = some [u] ∧
      aget phone (bufferUpdate phone u s).1.updateHandlers = none ∧
      (h.timeoutHandle = some tid →
        (bufferUpdate phone u s).1.activeTimers = s.activeTimers.erase tid)) ∧
    ((∃ o, h.offset = some o ∧ o ≠ 0 ∧ u.update_id ≤ o) →
      (bufferUpdate phone u s).2 = none ∧
      aget phone (bufferUpdate phone u s).1.updateHandlers = some h) ∧
    ((waiterTimerFire phone tid s).2 = [] ∧
      aget phone (waiterTimerFire phone tid s).1.updateHandlers = none) := by
  have hagA : aget phone (adel phone s.updateHandlers) = none :=
    aget_adel_self hnodup
  refine ⟨?_, ?_, ⟨rfl, hagA⟩⟩
  · intro hpass
    rcases hth : h.timeoutHandle with _ | t <;>
      rcases ho : h.offset with _ | o
    · refine ⟨?_, ?_, ?_⟩
      · simp [bufferUpdate, getBufferedUpdates, hh, hbuf, ho, hth, aget_aset_self]
      · simp [bufferUpdate, getBufferedUpdates, hh, hbuf, ho, hth, aget_aset_self, hagA]
      · intro htid; exact Option.noConfusion htid
    · by_cases ho0 : o = 0
      · subst ho0
        refine ⟨?_, ?_, ?_⟩
        · simp [bufferUpdate, getBufferedUpdates, hh, hbuf, ho, hth, aget_aset_self]
        · simp [bufferUpdate, getBufferedUpdates, hh, hbuf, ho, hth, aget_aset_self, hagA]
        · intro htid; exact Option.noConfusion htid
      · have hlt : o < u.update_id := (hpass o ho).resolve_left ho0
        refine ⟨?_, ?_, ?_⟩
        · simp [bufferUpdate, getBufferedUpdates, hh, hbuf, ho, hth, ho0,
            List.findIdx?, hlt, aget_aset_self]
        · simp [bufferUpdate, getBufferedUpdates, hh, hbuf, ho, hth, ho0,
            List.findIdx?, hlt, aget_aset_self, hagA]
        · intro htid; exact Option.noConfusion htid
    · refine ⟨?_, ?_, ?_⟩
      · simp [bufferUpdate, getBufferedUpdates, hh, hbuf, ho, hth, aget_aset_self]
      · simp [bufferUpdate, getBufferedUpdates, hh, hbuf, ho, hth, aget_aset_self, hagA]
      · intro htid
        injection htid with ht'
        subst ht'
        simp [bufferUpdate, getBufferedUpdates, hh, hbuf, ho, hth, aget_aset_self]
    · by_cases ho0 : o = 0
      · subst ho0
        refine ⟨?_, ?_, ?_⟩
        · simp [bufferUpdate, getBufferedUpdates, hh, hbuf, ho, hth, aget_aset_self]
        · simp [bufferUpdate, getBufferedUpdates, hh, hbuf, ho, hth, aget_aset_self, hagA]
        · intro htid
          injection htid with ht'
          subst ht'
          simp [bufferUpdate, getBufferedUpdates, hh, hbuf, ho, hth, aget_aset_self]
      · have hlt : o < u.update_id := (hpass o ho).resolve_left ho0
        refine ⟨?_, ?_, ?_⟩
        · simp [bufferUpdate, getBufferedUpdates, hh, hbuf, ho, hth, ho0,
            List.findIdx?, hlt, aget_aset_self]
        · simp [bufferUpdate, getBufferedUpdates, hh, hbuf, ho, hth, ho0,
            List.findIdx?, hlt, aget_aset_self, hagA]
        · intro htid
          injection htid with ht'
          subst ht'
          simp [bufferUpdate, getBufferedUpdates, hh, hbuf, ho, hth, ho0,
            List.findIdx?, hlt, aget_aset_self]
  · rintro ⟨o, ho, ho0, hle⟩
    have hnlt : ¬ o < u.update_id := by omega
    constructor
    · simp [bufferUpdate, getBufferedUpdates, hh, hbuf, ho, ho0,
        List.findIdx?, hnlt, aget_aset_self]
    · simp [bufferUpdate, getBufferedUpdates, hh, hbuf, ho, ho0,
        List.findIdx?, hnlt, aget_aset_self]

/-- Witness for C5's amended theorem: the waiter of `c5State` (offset
`100`, timer `7`) is resolved by the delivery of update `150`. -/
theorem c5_witness :
    (bufferUpdate "p" (sampleUpdate 150) c5State).2 = some [sampleUpdate 150] ∧
    aget "p" (bufferUpdate "p" (sampleUpdate 150) c5State).1.updateHandlers = none ∧
    (c5Handler.timeoutHandle = some 7 →
      (bufferUpdate "p" (sampleUpdate 150) c5State).1.activeTimers =
        c5State.activeTimers.erase 7) :=
  (c5_amended_waiter_resolution "p" c5Handler (sampleUpdate 150) 7 c5State
    rfl rfl (by decide)).1
    (by intro o ho; simp [c5Handler] at ho; simp [sampleUpdate]; omega)


/-- `idsFor` distributes over a consed issuance. -/
theorem idsFor_cons (phone q : String) (i : Nat) (rest : List (String × Nat)) :
    idsFor phone ((q, i) :: rest) =
      if q = phone then i :: idsFor phone rest else idsFor phone rest := by
  by_cases hq : q = phone <;> simp [idsFor, List.filterMap_cons, hq]

/-- Ids issued to `phone` by a run started from a state whose stored
counter for `phone` is a non-zero `v` all exceed `v`. -/
theorem runGen_gt (calls : List (String × Nat)) :
    ∀ (s : UMState) (phone : String) (v : Nat),
      aget phone s.lastUpdateId = some v → v ≠ 0 →
      ∀ i ∈ idsFor phone (runGen calls s).1, v < i := by
  induction calls with
  | nil => intro s phone v _ _ i hi; simp [runGen, idsFor] at hi
  | cons c rest ih =>
    obtain ⟨q, now⟩ := c
    intro s phone v hv hv0 i hi
    simp only [runGen, idsFor_cons] at hi
    by_cases hq : q = phone
    · subst hq
      rw [if_pos rfl] at hi
      have hid : (generateUpdateId q now s).1 = v + 1 := by
        simp [generateUpdateId, hv, hv0]
      have hstore : aget q (generateUpdateId q now s).2.lastUpdateId =
          some (v + 1) := by
        simp [generateUpdateId, hv, hv0, aget_aset_self]
      rcases List.mem_cons.mp hi with rfl | hi
      · omega
      · have := ih (generateUpdateId q now s).2 q (v + 1) hstore
          (Nat.succ_ne_zero v) i hi
        omega
    · rw [if_neg hq] at hi
      have hkeep : aget phone (generateUpdateId q now s).2.lastUpdateId =
          some v := by
        have : aget phone (aset q ((match aget q s.lastUpdateId with
            | some w => if w = 0 then now else w
            | none => now) + 1) s.lastUpdateId) = aget phone s.lastUpdateId :=
          aget_aset_ne hq _ s.lastUpdateId
        simpa [generateUpdateId, this] using hv
      exact ih (generateUpdateId q now s).2 phone v hkeep hv0 i hi

/-- Ids issued to `phone` by any run are pairwise strictly increasing,
provided the stored counter for `phone`, if present, is non-zero. -/
theorem runGen_pairwise (calls : List (String × Nat)) :
    ∀ (s : UMState) (phone : String),
      (∀ v, aget phone s.lastUpdateId = some v → v ≠ 0) →
      (idsFor phone (runGen calls s).1).Pairwise (· < ·) := by
  induction calls with
  | nil => intro s phone _; simp [runGen, idsFor]
  | cons c rest ih =>
    obtain ⟨q, now⟩ := c
    intro s phone hs
    simp only [runGen, idsFor_cons]
    by_cases hq : q = phone
    · subst hq
      rw [if_pos rfl]
      have hstore : aget q (generateUpdateId q now s).2.lastUpdateId =
          some (generateUpdateId q now s).1 := by
        simp [generateUpdateId, aget_aset_self]
      have hpos : (generateUpdateId q now s).1 ≠ 0 := by
        simp [generateUpdateId]
      refine List.pairwise_cons.mpr ⟨?_, ?_⟩
      · intro j hj
        exact runGen_gt rest (generateUpdateId q now s).2 q
          (generateUpdateId q now s).1 hstore hpos j hj
      · exact ih (generateUpdateId q now s).2 q
          (fun v hv => by rw [hstore] at hv; injection hv with h; omega)
    · rw [if_neg hq]
      have hkeep : aget phone (generateUpdateId q now s).2.lastUpdateId =
          aget phone s.lastUpdateId := by
        simp [generateUpdateId]
        exact aget_aset_ne hq _ s.lastUpdateId
      exact ih (generateUpdateId q now s).2 phone
        (fun v hv => hs v (hkeep ▸ hv))

/-- C10: within one process lifetime (a fresh state), the sequence of
`update_id`s issued by `generateUpdateId` for any one account over any
interleaving of calls is pairwise strictly increasing — each call returns
an id strictly larger than every earlier id for that account — and hence
never repeats a value. -/
theorem c10_update_ids_strictly_increasing (calls : List (String × Nat))
    (phone : String) :
    (idsFor phone (runGen calls initialState).1).Pairwise (· < ·) ∧
    (idsFor phone (runGen calls initialState).1).Nodup := by
  have hp := runGen_pairwise calls initialState phone
    (fun v hv => by simp [initialState, aget] at hv)
  exact ⟨hp, hp.imp (fun h => Nat.ne_of_lt h)⟩

/-- Witness-style instantiation of C10 on a concrete interleaved run:
the hypothesis-free theorem applied at a concrete call list. -/
theorem c10_concrete_run :
    idsFor "p" (runGen [("p", 100), ("q", 5), ("p", 0), ("p", 3)]
      initialState).1 = [101, 102, 103] := by
  decide


/-- Entries surviving a fold of deletions were in the original list. -/
theorem mem_of_mem_foldl_adel {κ α : Type} [DecidableEq κ] :
    ∀ (vs : List (κ × α)) (l : List (κ × α)) (e : κ × α),
      e ∈ vs.foldl (fun acc x => adel x.1 acc) l → e ∈ l := by
  intro vs
  induction vs with
  | nil => intro l e he; simpa using he
  | cons v rest ih =>
    intro l e he
    simp only [List.foldl_cons] at he
    exact mem_of_mem_adel (ih (adel v.1 l) e he)

/-- Entries surviving `cleanupProcessedMessages` were in the cache. -/
theorem mem_of_mem_cleanup {now : Nat} {pm : List (MsgKey × Nat)}
    {e : MsgKey × Nat} (he : e ∈ cleanupProcessedMessages now pm) : e ∈ pm := by
  unfold cleanupProcessedMessages at he
  by_cases hlen : MAX_CACHE_SIZE <
      (pm.filter (fun e => decide (¬ e.2 < now - MESSAGE_CACHE_TTL))).length
  · rw [if_pos hlen] at he
    exact List.mem_of_mem_filter (mem_of_mem_foldl_adel _ _ _ he)
  · rw [if_neg hlen] at he
    exact List.mem_of_mem_filter he

/-- A key absent from the cache stays absent through cleanup. -/
theorem aget_cleanup_none {k : MsgKey} {now : Nat} {pm : List (MsgKey × Nat)}
    (h : aget k pm = none) :
    aget k (cleanupProcessedMessages now pm) = none := by
  rw [aget_eq_none_iff] at h ⊢
  exact fun p hp => h p (mem_of_mem_cleanup hp)

/-- The delivery router always hands over exactly the one update. -/
theorem dispatchUpdate_emits (user : UserRec) (u : Update) (s : UMState) :
    (dispatchUpdate user u s).2.1 = [u] := by
  unfold dispatchUpdate
  split <;> rfl

/-- The stable two-element sort. -/
theorem ssortBy_pair {α : Type} (key : α → Nat) (a b : α) :
    ssortBy key [a, b] = if key a ≤ key b then [a, b] else [b, a] := by
  by_cases h : key a ≤ key b <;> simp [ssortBy, insertByKey, h]

/-- C6: two album fragments of the same group, the second offered while
the group is still pending, produce exactly one update across both
calls: the first call emits nothing, the second emits a single `album`
update containing both fragments ordered ascending by their own message
id.  Hypotheses: the group is new, neither fragment is a dedup hit, the
fragments are distinct messages, and album updates are allowed for the
currently registered waiter's options (true by default when no waiter or
no options are registered). -/
theorem c6_album_two_fragments (user : UserRec) (m1 m2 : Msg) (g : String)
    (ty1 ty2 : UpdateType) (now1 now2 : Nat) (s : UMState)
    (hg1 : m1.groupedId = some g) (hg2 : m2.groupedId = some g)
    (hne : m1.id ≠ m2.id)
    (halb : aget g s.pendingAlbums = none)
    (hd1 : aget { phone := user.phoneNumber, msgId := m1.id, kind := ty1 }
      s.processedMessages = none)
    (hd2 : aget { phone := user.phoneNumber, msgId := m2.id, kind := ty2 }
      s.processedMessages = none)
    (hallow : shouldIncludeUpdate .album
      ((aget user.phoneNumber s.updateHandlers).bind Handler.options) = true) :
    (handleMessageUpdate user m1 ty1 now1 s).2.1 = [] ∧
    ∃ uid,
      (handleMessageUpdate user m2 ty2 now2
          (handleMessageUpdate user m1 ty1 now1 s).1).2.1 =
        [{ update_id := uid,
           payload := .album g
             (if m1.id ≤ m2.id
              then [convertToMessage m1, convertToMessage m2]
              else [convertToMessage m2, convertToMessage m1]) }] := by
  have hkey : ({ phone := user.phoneNumber, msgId := m1.id, kind := ty1 } : MsgKey) ≠
      { phone := user.phoneNumber, msgId := m2.id, kind := ty2 } :=
    fun h => hne (congrArg MsgKey.msgId h)
  have hcall1 : handleMessageUpdate user m1 ty1 now1 s =
      ({ s with
         processedMessages :=
           if MAX_CACHE_SIZE <
               (aset { phone := user.phoneNumber, msgId := m1.id, kind := ty1 }
                 now1 s.processedMessages).length
           then cleanupProcessedMessages now1
             (aset { phone := user.phoneNumber, msgId := m1.id, kind := ty1 }
               now1 s.processedMessages)
           else aset { phone := user.phoneNumber, msgId := m1.id, kind := ty1 }
             now1 s.processedMessages,
         pendingAlbums :=
           aset g { messages := [m1], timer := s.nextTimer } s.pendingAlbums,
         activeTimers := s.activeTimers ++ [s.nextTimer],
         nextTimer := s.nextTimer + 1 }, [], none) := by
    simp [handleMessageUpdate, hd1, handleMediaAlbum, hg1, halb]
  have hbase : aget { phone := user.phoneNumber, msgId := m2.id, kind := ty2 }
      (aset { phone := user.phoneNumber, msgId := m1.id, kind := ty1 }
        now1 s.processedMessages) = none := by
    rw [aget_aset_ne hkey]; exact hd2
  have hd2' : aget { phone := user.phoneNumber, msgId := m2.id, kind := ty2 }
      (if MAX_CACHE_SIZE <
          (aset { phone := user.phoneNumber, msgId := m1.id, kind := ty1 }
            now1 s.processedMessages).length
       then cleanupProcessedMessages now1
         (aset { phone := user.phoneNumber, msgId := m1.id, kind := ty1 }
           now1 s.processedMessages)
       else aset { phone := user.phoneNumber, msgId := m1.id, kind := ty1 }
         now1 s.processedMessages) = none := by
    by_cases hl : MAX_CACHE_SIZE <
        (aset { phone := user.phoneNumber, msgId := m1.id, kind := ty1 }
          now1 s.processedMessages).length
    · simpa [hl] using aget_cleanup_none hbase
    · simpa [hl] using hbase
  have hsort : ssortBy Msg.id [m1, m2] =
      if m1.id ≤ m2.id then [m1, m2] else [m2, m1] := ssortBy_pair Msg.id m1 m2
  refine ⟨by rw [hcall1], (generateUpdateId user.phoneNumber now2 s).1, ?_⟩
  rw [hcall1]
  by_cases hle : m1.id ≤ m2.id <;>
    simp [handleMessageUpdate, hd2', handleMediaAlbum, hg2, aget_aset_self,
      hallow, dispatchUpdate_emits, hsort, hle, generateUpdateId]


/-- Witness for C6: fragments `11` and `10` of group `g` offered in that
order from a fresh state yield one album update ordered `[10, 11]`. -/
theorem c6_witness :
    (handleMessageUpdate pollingUser c6MsgHigh .message 5 initialState).2.1 = [] ∧
    ∃ uid,
      (handleMessageUpdate pollingUser c6MsgLow .message 6
          (handleMessageUpdate pollingUser c6MsgHigh .message 5
            initialState).1).2.1 =
        [{ update_id := uid,
           payload := .album "g"
             (if c6MsgHigh.id ≤ c6MsgLow.id
              then [convertToMessage c6MsgHigh, convertToMessage c6MsgLow]
              else [convertToMessage c6MsgLow, convertToMessage c6MsgHigh]) }] :=
  c6_album_two_fragments pollingUser c6MsgHigh c6MsgLow "g" .message .message
    5 6 initialState rfl rfl (by decide) rfl rfl rfl rfl


/-- `generateUpdateId` leaves the dedup cache unchanged. -/
theorem generateUpdateId_processed (phone : String) (now : Nat) (s : UMState) :
    (generateUpdateId phone now s).2.processedMessages = s.processedMessages :=
  rfl

/-- `getBufferedUpdates` leaves the dedup cache unchanged. -/
theorem getBufferedUpdates_processed (phone : String) (off : Option Nat)
    (s : UMState) :
    (getBufferedUpdates phone off s).2.processedMessages =
      s.processedMessages := by
  unfold getBufferedUpdates
  rcases off with _ | o
  · rfl
  · dsimp only
    by_cases ho : o = 0
    · rw [if_pos ho]
    · rw [if_neg ho]
      split <;> rfl

/-- `bufferUpdate` leaves the dedup cache unchanged. -/
theorem bufferUpdate_processed (phone : String) (u : Update) (s : UMState) :
    (bufferUpdate phone u s).1.processedMessages = s.processedMessages := by
  unfold bufferUpdate
  dsimp only
  rcases aget phone s.updateHandlers with _ | h
  · rfl
  · dsimp only
    split
    · rcases h.timeoutHandle with _ | t <;>
        simp [getBufferedUpdates_processed]
    · simp [getBufferedUpdates_processed]

/-- `dispatchUpdate` leaves the dedup cache unchanged. -/
theorem dispatchUpdate_processed (user : UserRec) (u : Update) (s : UMState) :
    (dispatchUpdate user u s).1.processedMessages = s.processedMessages := by
  unfold dispatchUpdate
  split
  · rfl
  · exact bufferUpdate_processed user.phoneNumber u s

/-- `handleMediaAlbum` leaves the dedup cache unchanged. -/
theorem handleMediaAlbum_processed (m : Msg) (s : UMState) :
    (handleMediaAlbum m s).2.processedMessages = s.processedMessages := by
  unfold handleMediaAlbum
  rcases m.groupedId with _ | g
  · rfl
  · dsimp only
    rcases aget g s.pendingAlbums with _ | a
    · rfl
    · dsimp only
      split <;> rfl

/-- For a dedup-fresh message, the cache after `handleMessageUpdate` is
the inserted cache, cleaned exactly when the insertion pushed it above
capacity (the claim C8 trigger). -/
theorem handleMessageUpdate_processed (user : UserRec) (m : Msg)
    (type : UpdateType) (now : Nat) (s : UMState)
    (hd : aget { phone := user.phoneNumber, msgId := m.id, kind := type }
      s.processedMessages = none) :
    (handleMessageUpdate user m type now s).1.processedMessages =
      if MAX_CACHE_SIZE <
          (aset { phone := user.phoneNumber, msgId := m.id, kind := type }
            now s.processedMessages).length
      then cleanupProcessedMessages now
        (aset { phone := user.phoneNumber, msgId := m.id, kind := type }
          now s.processedMessages)
      else aset { phone := user.phoneNumber, msgId := m.id, kind := type }
        now s.processedMessages := by
  unfold handleMessageUpdate
  dsimp only
  rw [hd]
  dsimp only [Option.isSome_none]
  rw [if_neg (by simp)]
  split
  all_goals
    split
    · rw [handleMediaAlbum_processed]
    · split <;>
        rw [dispatchUpdate_processed, generateUpdateId_processed,
          handleMediaAlbum_processed]

/-- A dedup-fresh non-grouped message always produces exactly one
update. -/
theorem handleMessageUpdate_single_emits (user : UserRec) (m : Msg)
    (type : UpdateType) (now : Nat) (s : UMState)
    (hg : m.groupedId = none)
    (hd : aget { phone := user.phoneNumber, msgId := m.id, kind := type }
      s.processedMessages = none) :
    ((handleMessageUpdate user m type now s).2.1).length = 1 := by
  simp [handleMessageUpdate, hd, handleMediaAlbum, hg, dispatchUpdate_emits]


/-- The dedup entries of `fillerEntries` are exactly the keyed fillers. -/
theorem fillerEntries_shape :
    ∀ p ∈ fillerEntries, ∃ i, i < 999 ∧ p = (fillerKey (i + 1), (1 : Nat)) := by
  intro p hp
  obtain ⟨i, hi, hp'⟩ := List.mem_map.mp hp
  exact ⟨i, by simpa using hi, hp'.symm⟩

/-- No filler entry is keyed by message `0`. -/
theorem fillerEntries_ne_zero : ∀ p ∈ fillerEntries, p.1 ≠ fillerKey 0 := by
  intro p hp h
  obtain ⟨i, hi, rfl⟩ := fillerEntries_shape p hp
  exact Nat.succ_ne_zero i (congrArg MsgKey.msgId h)

/-- No filler entry is keyed by message `1000`. -/
theorem fillerEntries_ne_thousand :
    ∀ p ∈ fillerEntries, p.1 ≠ fillerKey 1000 := by
  intro p hp h
  obtain ⟨i, hi, rfl⟩ := fillerEntries_shape p hp
  have := congrArg MsgKey.msgId h
  simp only [fillerKey] at this
  omega

/-- Every filler entry carries timestamp `1`. -/
theorem fillerEntries_ts : ∀ p ∈ fillerEntries, p.2 = 1 := by
  intro p hp
  obtain ⟨i, hi, rfl⟩ := fillerEntries_shape p hp
  rfl

/-- There are `999` filler entries. -/
theorem fillerEntries_length : fillerEntries.length = 999 := by
  simp [fillerEntries]

set_option maxRecDepth 4000 in
/-- Evaluating the dedup eviction at the C7 scenario: on the
`1001`-entry cache holding the fillers, the entry of message `0` (oldest
timestamp, `0`) and the entry of message `1000` (timestamp `2`), cleanup
at `now = 2` expires nothing (the TTL window covers everything) and then
evicts exactly the oldest entry — message `0`'s — although it is far
inside its TTL. -/
theorem c7_cleanup_evicts_A :
    cleanupProcessedMessages 2
      (fillerEntries ++ [(fillerKey 0, 0), (fillerKey 1000, 2)]) =
      fillerEntries ++ [(fillerKey 1000, 2)] := by
  have hfil : (fillerEntries ++ [(fillerKey 0, 0), (fillerKey 1000, 2)]).filter
      (fun e => decide (¬ e.2 < 2 - MESSAGE_CACHE_TTL)) =
      fillerEntries ++ [(fillerKey 0, 0), (fillerKey 1000, 2)] :=
    List.filter_eq_self.mpr (fun e _ => by simp [MESSAGE_CACHE_TTL])
  have hsorted : ssortBy (fun e => e.2)
      (fillerEntries ++ [(fillerKey 0, 0), (fillerKey 1000, 2)]) =
      (fillerKey 0, 0) :: (fillerEntries ++ [(fillerKey 1000, 2)]) := by
    unfold ssortBy
    rw [List.foldr_append]
    have hbase : List.foldr (insertByKey (fun e => e.2)) []
        [(fillerKey 0, 0), (fillerKey 1000, 2)] =
        [(fillerKey 0, 0), (fillerKey 1000, 2)] := by
      simp [insertByKey]
    rw [hbase]
    have hcons := @foldr_insertByKey_cons (MsgKey × Nat)
      (fun e => e.2) (fillerKey 0, 0) fillerEntries
      (fun x hx => by simp [fillerEntries_ts x hx])
      [(fillerKey 1000, 2)]
    rw [hcons]
    have happ := @foldr_insertByKey_append (MsgKey × Nat)
      (fun e => e.2) fillerEntries [(fillerKey 1000, 2)]
      (List.pairwise_of_forall_mem_list
        (fun a ha b hb => by
          simp [fillerEntries_ts a ha, fillerEntries_ts b hb]))
      (fun x hx y hy => by
        rcases List.mem_singleton.mp hy with rfl
        simp [fillerEntries_ts x hx])
    rw [happ]
  have hL2 : (fillerEntries ++ [(fillerKey 0, 0), (fillerKey 1000, 2)]).length
      = 1001 := by
    simp [fillerEntries_length]
  have hdelA : adel (fillerKey 0)
      (fillerEntries ++ [(fillerKey 0, 0), (fillerKey 1000, 2)]) =
      fillerEntries ++ [(fillerKey 1000, 2)] := by
    rw [adel_append_left fillerEntries_ne_zero]
    simp [adel]
  unfold cleanupProcessedMessages
  simp only [hfil]
  simp only [hL2]
  simp only [hsorted]
  simp only [MAX_CACHE_SIZE]
  rw [if_pos (by norm_num)]
  norm_num
  exact hdelA


set_option maxRecDepth 8000 in
/-- C7 counterexample: capacity eviction defeats the dedup guarantee
inside the TTL.  Start from a cache holding `999` filler entries.
Observing message `0` (fresh) produces one update and records its dedup
entry at time `0`.  Observing the distinct message `1000` at time `2`
pushes the cache to `1001` entries, so eviction runs and removes the
oldest entry — message `0`'s, recorded `2` ms ago, far inside the
`60000` ms TTL.  Re-observing message `0` at time `3` — the same
`(account, message id, kind)` triple, `3` ms after its first
observation — is then *not* a no-op: it produces a second update (and
allocates a second sequence number), so the pair of observations yields
two updates, refuting the claim. -/
theorem c7_counterexample_eviction_defeats_dedup :
    ((handleMessageUpdate pollingUser c7MsgA .message 0 c7State).2.1).length = 1 ∧
    ((handleMessageUpdate pollingUser c7MsgA .message 3
      (handleMessageUpdate pollingUser c7MsgF .message 2
        (handleMessageUpdate pollingUser c7MsgA .message 0
          c7State).1).1).2.1).length = 1 := by
  have hkeyA : (⟨pollingUser.phoneNumber, c7MsgA.id, UpdateType.message⟩ :
      MsgKey) = fillerKey 0 := rfl
  have hkeyF : (⟨pollingUser.phoneNumber, c7MsgF.id, UpdateType.message⟩ :
      MsgKey) = fillerKey 1000 := rfl
  have hAF : fillerKey 0 ≠ fillerKey 1000 := by
    intro h
    exact absurd (congrArg MsgKey.msgId h) (by simp [fillerKey])
  have hc7p : c7State.processedMessages = fillerEntries := rfl
  have hd1 : aget (⟨pollingUser.phoneNumber, c7MsgA.id, UpdateType.message⟩ :
      MsgKey) c7State.processedMessages = none := by
    rw [hkeyA, hc7p]
    exact aget_eq_none_iff.mpr fillerEntries_ne_zero
  have hs1 : ((handleMessageUpdate pollingUser c7MsgA .message 0
      c7State).2.1).length = 1 :=
    handleMessageUpdate_single_emits pollingUser c7MsgA .message 0 c7State
      rfl hd1
  have hp1 : (handleMessageUpdate pollingUser c7MsgA .message 0
      c7State).1.processedMessages = fillerEntries ++ [(fillerKey 0, 0)] := by
    rw [handleMessageUpdate_processed pollingUser c7MsgA .message 0 c7State hd1,
      hkeyA, hc7p, aset_of_not_mem fillerEntries_ne_zero 0]
    have hL1 : (fillerEntries ++ [(fillerKey 0, 0)]).length = 1000 := by
      simp [fillerEntries_length]
    rw [hL1, if_neg (by simp [MAX_CACHE_SIZE])]
  have hne_all : ∀ p ∈ fillerEntries ++ [(fillerKey 0, 0)],
      p.1 ≠ fillerKey 1000 := by
    intro p hp
    rcases List.mem_append.mp hp with hp | hp
    · exact fillerEntries_ne_thousand p hp
    · rcases List.mem_singleton.mp hp with rfl
      exact hAF
  have hd2 : aget (⟨pollingUser.phoneNumber, c7MsgF.id, UpdateType.message⟩ :
      MsgKey) (handleMessageUpdate pollingUser c7MsgA
      .message 0 c7State).1.processedMessages = none := by
    rw [hkeyF, hp1]
    exact aget_eq_none_iff.mpr hne_all
  have hp2 : (handleMessageUpdate pollingUser c7MsgF .message 2
      (handleMessageUpdate pollingUser c7MsgA .message 0
        c7State).1).1.processedMessages =
      fillerEntries ++ [(fillerKey 1000, 2)] := by
    rw [handleMessageUpdate_processed pollingUser c7MsgF .message 2 _ hd2,
      hkeyF, hp1]
    have hset2 : aset (fillerKey 1000) 2 (fillerEntries ++ [(fillerKey 0, 0)])
        = fillerEntries ++ [(fillerKey 0, 0), (fillerKey 1000, 2)] := by
      rw [aset_of_not_mem hne_all 2]
      simp
    rw [hset2]
    have hL2' : (fillerEntries ++
        [(fillerKey 0, 0), (fillerKey 1000, 2)]).length = 1001 := by
      simp [fillerEntries_length]
    rw [hL2', if_pos (by simp [MAX_CACHE_SIZE])]
    exact c7_cleanup_evicts_A
  have hd3 : aget (⟨pollingUser.phoneNumber, c7MsgA.id, UpdateType.message⟩ :
      MsgKey) (handleMessageUpdate pollingUser c7MsgF
      .message 2 (handleMessageUpdate pollingUser c7MsgA .message 0
        c7State).1).1.processedMessages = none := by
    rw [hkeyA, hp2]
    refine aget_eq_none_iff.mpr ?_
    intro p hp
    rcases List.mem_append.mp hp with hp | hp
    · exact fillerEntries_ne_zero p hp
    · rcases List.mem_singleton.mp hp with rfl
      exact fun h => hAF h.symm
  exact ⟨hs1, handleMessageUpdate_single_emits pollingUser c7MsgA .message 3 _
    rfl hd3⟩

/-- C7 amended: a second observation of the same `(account, message id,
kind)` triple is a silent no-op — no state change, no update, no
sequence number — *provided its dedup entry is still in the cache* (it
is unless capacity pressure evicted it; see the counterexample). -/
theorem c7_amended_dedup_hit_is_noop (user : UserRec) (m : Msg)
    (type : UpdateType) (now t : Nat) (s : UMState)
    (h : aget { phone := user.phoneNumber, msgId := m.id, kind := type }
      s.processedMessages = some t) :
    handleMessageUpdate user m type now s = (s, [], none) := by
  simp [handleMessageUpdate, h]

/-- Witness for C7's amended theorem: observing message `0` while its
dedup entry is cached is a no-op. -/
theorem c7_witness :
    handleMessageUpdate pollingUser c7MsgA .message 3
      { initialState with processedMessages := [(fillerKey 0, 0)] } =
      ({ initialState with processedMessages := [(fillerKey 0, 0)] },
       [], none) :=
  c7_amended_dedup_hit_is_noop pollingUser c7MsgA .message 3 0 _ rfl


/-- Folding key-deletions over a duplicate-free map removes exactly the
entries whose key occurs among the victims. -/
theorem foldl_adel_eq_filter {κ α : Type} [DecidableEq κ] :
    ∀ (vs l : List (κ × α)), keysNodup l →
      vs.foldl (fun acc e => adel e.1 acc) l =
        l.filter (fun p => decide (p.1 ∉ vs.map Prod.fst)) := by
  intro vs
  induction vs with
  | nil =>
    intro l _
    simp
  | cons v vs ih =>
    intro l hl
    simp only [List.foldl_cons]
    rw [adel_eq_filter hl, ih _ (keysNodup_filter _ hl), List.filter_filter]
    refine List.filter_congr ?_
    intro p hp
    by_cases h1 : p.1 = v.1 <;> by_cases h2 : p.1 ∈ vs.map Prod.fst <;>
      simp [h1, h2]


/-- Evicting the `k` smallest-timestamp entries (the keys of `S.take k`,
with `S` a sorted permutation of the duplicate-free map `F`) leaves
exactly `F.length - k` entries, and every evicted entry's timestamp is at
most every survivor's. -/
theorem evict_facts {κ : Type} [DecidableEq κ] (F S : List (κ × Nat))
    (k : Nat) (hk : keysNodup F) (hperm : List.Perm S F)
    (hpair : S.Pairwise (fun a b => a.2 ≤ b.2)) :
    (F.filter (fun p => decide (p.1 ∉ (S.take k).map Prod.fst))).length =
      F.length - k ∧
    (∀ e ∈ F, e.1 ∈ (S.take k).map Prod.fst →
      ∀ e2 ∈ F.filter (fun p => decide (p.1 ∉ (S.take k).map Prod.fst)),
        e.2 ≤ e2.2) := by
  have hsplit : S.take k ++ S.drop k = S := List.take_append_drop k S
  have hSnodup : (S.map Prod.fst).Nodup :=
    ((hperm.map Prod.fst).nodup_iff).mpr hk
  have hnodupVR : ((S.take k).map Prod.fst ++ (S.drop k).map Prod.fst).Nodup := by
    rw [← List.map_append, hsplit]
    exact hSnodup
  have hdisj : List.Disjoint ((S.take k).map Prod.fst)
      ((S.drop k).map Prod.fst) := (List.nodup_append.mp hnodupVR).2.2
  have hfq : (S.take k ++ S.drop k).filter
      (fun p => decide (p.1 ∉ (S.take k).map Prod.fst)) = S.drop k := by
    rw [List.filter_append]
    have h1 : (S.take k).filter
        (fun p => decide (p.1 ∉ (S.take k).map Prod.fst)) = [] := by
      rw [List.filter_eq_nil_iff]
      intro e he
      simp only [decide_eq_true_eq, not_not]
      exact List.mem_map_of_mem Prod.fst he
    have h2 : (S.drop k).filter
        (fun p => decide (p.1 ∉ (S.take k).map Prod.fst)) = S.drop k := by
      rw [List.filter_eq_self]
      intro e he
      simp only [decide_eq_true_eq]
      intro hcontra
      exact hdisj hcontra (List.mem_map_of_mem Prod.fst he)
    rw [h1, h2, List.nil_append]
  have hfperm : List.Perm
      (F.filter (fun p => decide (p.1 ∉ (S.take k).map Prod.fst)))
      (S.drop k) := by
    have := (hperm.symm).filter
      (fun p => decide (p.1 ∉ (S.take k).map Prod.fst))
    rw [show S.filter (fun p => decide (p.1 ∉ (S.take k).map Prod.fst)) =
        (S.take k ++ S.drop k).filter
          (fun p => decide (p.1 ∉ (S.take k).map Prod.fst)) from by
      rw [hsplit], hfq] at this
    exact this
  constructor
  · rw [hfperm.length_eq, List.length_drop, hperm.length_eq]
  · intro e heF hkey e2 he2
    have heS : e ∈ S := hperm.mem_iff.mpr heF
    have heV : e ∈ S.take k := by
      rw [← hsplit] at heS
      rcases List.mem_append.mp heS with h | h
      · exact h
      · exact absurd (List.mem_map_of_mem Prod.fst h) (fun hc => hdisj hkey hc)
    have he2q := List.of_mem_filter he2
    have he2F := List.mem_of_mem_filter he2
    have he2S : e2 ∈ S := hperm.mem_iff.mpr he2F
    have he2R : e2 ∈ S.drop k := by
      rw [← hsplit] at he2S
      rcases List.mem_append.mp he2S with h | h
      · exfalso
        simp only [decide_eq_true_eq] at he2q
        exact he2q (List.mem_map_of_mem Prod.fst h)
      · exact h
    have hpairVR : (S.take k ++ S.drop k).Pairwise
        (fun a b => a.2 ≤ b.2) := by
      rw [hsplit]
      exact hpair
    exact (List.pairwise_append.mp hpairVR).2.2 e heV e2 he2R


/-- Closed form of `cleanupProcessedMessages`: filter out expired
entries, then (only when above capacity) drop the entries whose keys are
among the `size - MAX_CACHE_SIZE` smallest-timestamp survivors. -/
theorem cleanup_spec (now : Nat) (pm : List (MsgKey × Nat))
    (hnodup : keysNodup pm) :
    cleanupProcessedMessages now pm =
      if MAX_CACHE_SIZE <
          (pm.filter (fun e => decide (¬ e.2 < now - MESSAGE_CACHE_TTL))).length
      then (pm.filter
          (fun e => decide (¬ e.2 < now - MESSAGE_CACHE_TTL))).filter
        (fun p => decide (p.1 ∉
          (((ssortBy (fun e => e.2)
              (pm.filter (fun e => decide (¬ e.2 < now - MESSAGE_CACHE_TTL)))).take
            ((pm.filter (fun e => decide (¬ e.2 < now -
              MESSAGE_CACHE_TTL))).length - MAX_CACHE_SIZE)).map Prod.fst)))
      else pm.filter (fun e => decide (¬ e.2 < now - MESSAGE_CACHE_TTL)) := by
  simp only [cleanupProcessedMessages]
  by_cases hcap : MAX_CACHE_SIZE <
      (pm.filter (fun e => decide (¬ e.2 < now - MESSAGE_CACHE_TTL))).length
  · rw [if_pos hcap, if_pos hcap]
    exact foldl_adel_eq_filter _ _ (keysNodup_filter _ hnodup)
  · rw [if_neg hcap, if_neg hcap]

/-- C8: whenever the dedup cache exceeds `MAX_CACHE_SIZE` after an
insertion, `handleMessageUpdate` runs eviction (fourth conjunct), and
eviction (for a cache with duplicate-free keys, which reachable caches
are): removes every entry older than the TTL (first conjunct); leaves at
most `MAX_CACHE_SIZE` entries (second conjunct); and never evicts a
newer-than-necessary entry — every non-expired entry that was evicted
has a timestamp at most that of every surviving entry (third
conjunct). -/
theorem c8_cleanup_eviction_policy (pm : List (MsgKey × Nat)) (now : Nat)
    (hnodup : keysNodup pm) :
    (∀ e ∈ cleanupProcessedMessages now pm,
      ¬ (e.2 < now - MESSAGE_CACHE_TTL)) ∧
    (cleanupProcessedMessages now pm).length ≤ MAX_CACHE_SIZE ∧
    (∀ e ∈ pm, e ∉ cleanupProcessedMessages now pm →
      ¬ (e.2 < now - MESSAGE_CACHE_TTL) →
      ∀ e2 ∈ cleanupProcessedMessages now pm, e.2 ≤ e2.2) ∧
    (∀ (user : UserRec) (m : Msg) (type : UpdateType) (now2 : Nat)
        (s : UMState),
      aget (⟨user.phoneNumber, m.id, type⟩ : MsgKey)
        s.processedMessages = none →
      (handleMessageUpdate user m type now2 s).1.processedMessages =
        if MAX_CACHE_SIZE < (aset (⟨user.phoneNumber, m.id, type⟩ : MsgKey)
            now2 s.processedMessages).length
        then cleanupProcessedMessages now2
          (aset (⟨user.phoneNumber, m.id, type⟩ : MsgKey) now2
            s.processedMessages)
        else aset (⟨user.phoneNumber, m.id, type⟩ : MsgKey) now2
          s.processedMessages) := by
  have hEF := evict_facts
    (pm.filter (fun e => decide (¬ e.2 < now - MESSAGE_CACHE_TTL)))
    (ssortBy (fun e => e.2)
      (pm.filter (fun e => decide (¬ e.2 < now - MESSAGE_CACHE_TTL))))
    ((pm.filter (fun e => decide (¬ e.2 < now -
      MESSAGE_CACHE_TTL))).length - MAX_CACHE_SIZE)
    (keysNodup_filter _ hnodup) (ssortBy_perm _ _) (ssortBy_sorted _ _)
  refine ⟨?_, ?_, ?_, fun user m type now2 s hd =>
    handleMessageUpdate_processed user m type now2 s hd⟩
  · intro e he
    rw [cleanup_spec now pm hnodup] at he
    by_cases hcap : MAX_CACHE_SIZE <
        (pm.filter (fun e => decide (¬ e.2 < now - MESSAGE_CACHE_TTL))).length
    · rw [if_pos hcap] at he
      simpa using List.of_mem_filter (List.mem_of_mem_filter he)
    · rw [if_neg hcap] at he
      simpa using List.of_mem_filter he
  · rw [cleanup_spec now pm hnodup]
    by_cases hcap : MAX_CACHE_SIZE <
        (pm.filter (fun e => decide (¬ e.2 < now - MESSAGE_CACHE_TTL))).length
    · rw [if_pos hcap, hEF.1]
      omega
    · rw [if_neg hcap]
      omega
  · intro e hepm henot hexp e2 he2
    rw [cleanup_spec now pm hnodup] at henot he2
    by_cases hcap : MAX_CACHE_SIZE <
        (pm.filter (fun e => decide (¬ e.2 < now - MESSAGE_CACHE_TTL))).length
    · rw [if_pos hcap] at henot he2
      have heF : e ∈ pm.filter
          (fun e => decide (¬ e.2 < now - MESSAGE_CACHE_TTL)) :=
        List.mem_filter.mpr ⟨hepm, by simpa using hexp⟩
      have heq : e.1 ∈ (((ssortBy (fun e => e.2)
          (pm.filter (fun e => decide (¬ e.2 < now -
            MESSAGE_CACHE_TTL)))).take
          ((pm.filter (fun e => decide (¬ e.2 < now -
            MESSAGE_CACHE_TTL))).length - MAX_CACHE_SIZE)).map Prod.fst) := by
        by_contra hq
        exact henot (List.mem_filter.mpr ⟨heF, by simpa using hq⟩)
      exact hEF.2 e heF heq e2 he2
    · rw [if_neg hcap] at henot he2
      exact absurd (List.mem_filter.mpr ⟨hepm, by simpa using hexp⟩) henot


/-- Witness for C8: the eviction bound applied to the concrete two-entry
cache `c8SmallCache` at time `70000`. -/
theorem c8_witness :
    (cleanupProcessedMessages 70000 c8SmallCache).length ≤ MAX_CACHE_SIZE :=
  (c8_cleanup_eviction_policy c8SmallCache 70000 (by decide)).2.1

end UserbotApi